import Mathlib
/-!
Shallow embedding of the hangry-hippos game core.

Source files embedded here: src/src/game.rs (Player, PlayerIdGenerator,
start_game_loop) and src/src/api.rs (register_player, feed_player, nose_goes,
get_player, get_players, Error).  Machine integers (usize) are modelled as Nat
with an explicit modulus where overflow matters; Instant/Duration are modelled
as Nat milliseconds.
-/

/-- Modulus of a 64-bit usize; the id counter is an AtomicUsize whose
fetch_add wraps at this bound. -/

def USIZE_MOD : Nat := 2 ^ 64

/-- PlayerId wraps a usize (game.rs, struct PlayerId(usize)). -/

structure PlayerId where
  val : Nat
deriving DecidableEq

/-- PlayerIdGenerator.next_id: fetch_add(1, Relaxed) on the counter cell;
returns the old value as the id and stores the wrapped successor. -/

def next_id (c : Nat) : PlayerId × Nat :=
  (⟨c⟩, (c + 1) % USIZE_MOD)

/-- Player state, from game.rs struct Player: id, username, score, balls
(food pile), and next_eat_time (Instant, as ms). -/

structure Player where
  id : PlayerId
  username : String
  score : Nat
  balls : Nat
  next_eat_time : Nat
deriving DecidableEq

/-- The PlayerMap HashMap<PlayerId, Player>, modelled as an association list;
well-formed states have pairwise-distinct keys. -/

abbrev PlayerMap := List (PlayerId × Player)

/-- HashMap::get on the association list. -/

def lookupP : PlayerMap → PlayerId → Option Player
  | [], _ => none
  | e :: rest, i => if e.1 = i then some e.2 else lookupP rest i

/-- Bump a player's score by one (feed_player: player.score += 1). -/

def bumpScore (p : Player) : Player :=
  { p with score := p.score + 1 }

/-- HashMap::get_mut followed by score += 1: replace the entry for the given
id with its score bumped. -/

def updateScore (m : PlayerMap) (i : PlayerId) : PlayerMap :=
  m.map fun e => if e.1 = i then (e.1, bumpScore e.2) else e

/-- HashMap::insert: replaces the binding when the key is present, otherwise
appends it. -/

def insertP (m : PlayerMap) (i : PlayerId) (p : Player) : PlayerMap :=
  if (lookupP m i).isSome then m.map fun e => if e.1 = i then (i, p) else e
  else m ++ [(i, p)]

/-- Host-audience broadcast messages sent by the api.rs handlers. -/

inductive HostBroadcastApi where
  | PlayerRegister (id : PlayerId) (name : String) (score : Nat)
  | HippoEat (id : PlayerId) (score : Nat)
  | UpdateWinner (id : PlayerId)
deriving DecidableEq

/-- Player-audience broadcast messages sent by the api.rs handlers. -/

inductive PlayerBroadcastApi where
  | UpdateWinner (id : PlayerId)
deriving DecidableEq

/-- Host-audience broadcast messages sent by the game loop (game.rs). -/

inductive HostBroadcastGame where
  | HippoEat (id : PlayerId) (score : Nat) (balls : Nat)
  | PlayerLose (id : PlayerId)
deriving DecidableEq

/-- Player-audience broadcast messages sent by the game loop (game.rs). -/

inductive PlayerBroadcastGame where
  | HippoEat (id : PlayerId) (score : Nat) (balls : Nat)
  | PlayerLose (id : PlayerId) (score : Nat)
deriving DecidableEq

/-- NoseGoes state. Modelled from the spec: the enum's definition is not under
src/ (only the match in api.rs::nose_goes shows its shape); spec section 4.6
gives Inactive and InProgress(remaining set of PlayerId). Extra fields hidden
behind `..` in the source match are irrelevant to the handler and omitted. -/

inductive NoseGoes where
  | Inactive
  | InProgress (remaining_players : List PlayerId)
deriving DecidableEq

/-- api.rs error enum. -/

inductive Error where
  | InvalidPlayer (id : PlayerId)
  | InvalidNoesGoes
deriving DecidableEq

/-- api.rs NoseGoesResponse. -/

inductive NoseGoesResponse where
  | Survived
  | Died
deriving DecidableEq

/-- The api.rs nose_goes handler: Inactive fails; an id outside the remaining
set fails; with more than one player remaining the caller is removed and
survives; the last remaining caller dies (state untouched). -/

def nose_goes : NoseGoes → PlayerId → Except Error NoseGoesResponse × NoseGoes
  | .Inactive, _ => (.error .InvalidNoesGoes, .Inactive)
  | .InProgress remaining, i =>
    if i ∈ remaining then
      if 1 < remaining.length then
        (.ok .Survived, .InProgress (remaining.erase i))
      else
        (.ok .Died, .InProgress remaining)
    else (.error .InvalidNoesGoes, .InProgress remaining)

/-- Whole-core state: the player map, the Winner mutex contents, the nose-goes
state and the id-generator counter cell. -/

structure GameState where
  players : PlayerMap
  winner : Option PlayerId
  nose : NoseGoes
  idGen : Nat
deriving DecidableEq

/-- Process start: empty map, no winner, inactive round, counter 0. -/

def initialState : GameState :=
  { players := [], winner := none, nose := .Inactive, idGen := 0 }

/-- api.rs PlayerData response payload. -/

structure PlayerData where
  id : PlayerId
  name : String
  score : Nat
  has_crown : Bool
deriving DecidableEq

/-- Result of register_player: the response, or the `assert!(old.is_none())`
"Player ID was registered twice" fatal assertion. -/

inductive RegisterResult where
  | ok (data : PlayerData)
  | panicDuplicate
deriving DecidableEq

/-- Outcome of one register_player call: result, next state, and the events
pushed to each broadcast hub (in send order). -/

structure RegisterOutcome where
  result : RegisterResult
  state : GameState
  hostEvents : List HostBroadcastApi
  playerEvents : List PlayerBroadcastApi
deriving DecidableEq

/-- api.rs register_player. The source revision under src/ constructs the
player as Player{id, name, score}; the balls and next_eat_time fields required
by the game-loop revision of Player are modelled from the spec: register takes
the starting resource count (spec 4.2, register(name, initial_resources)) and
the initial next-eligible time, which the spec leaves open, as parameters.
Score starts at 0; the id comes from the shared generator; the host hub gets
PlayerRegister, and if no winner is set yet the caller becomes the winner and
both hubs get UpdateWinner. -/

def register_player (s : GameState) (name : String) (balls next_eat : Nat) :
    RegisterOutcome :=
  let idg := next_id s.idGen
  let player : Player :=
    { id := idg.1, username := name, score := 0, balls := balls
      next_eat_time := next_eat }
  let old := lookupP s.players idg.1
  let players := insertP s.players idg.1 player
  if old.isSome then
    { result := .panicDuplicate
      state := { s with players := players, idGen := idg.2 }
      hostEvents := []
      playerEvents := [] }
  else
    { result := .ok { id := idg.1, name := name, score := 0
                      has_crown := s.winner.isNone }
      state := { s with players := players
                        winner := if s.winner.isNone then some idg.1 else s.winner
                        idGen := idg.2 }
      hostEvents := [.PlayerRegister idg.1 name 0] ++
        (if s.winner.isNone then [.UpdateWinner idg.1] else [])
      playerEvents := if s.winner.isNone then [.UpdateWinner idg.1] else [] }

/-- Result of feed_player: the FeedMeResponse score, an api error, or one of
the two panics in the winner block: the expect on an empty Winner, and the
unwrap of the winner's registry entry. -/

inductive FeedResult where
  | ok (score : Nat)
  | err (e : Error)
  | panicNoWinner
  | panicWinnerMissing
deriving DecidableEq

/-- Outcome of one feed_player call. -/

structure FeedOutcome where
  result : FeedResult
  state : GameState
  hostEvents : List HostBroadcastApi
  playerEvents : List PlayerBroadcastApi
deriving DecidableEq

/-- api.rs feed_player: under the write lock, bump the caller's score (or
return InvalidPlayer if absent); send HippoEat to hosts; then lock the winner,
panic if it is empty, look the winner up in the same map (panicking if absent),
and hand the crown to the caller exactly when the new score strictly exceeds
the winner's score and the caller is not the winner, sending UpdateWinner to
both hubs. -/

def feed_player (s : GameState) (i : PlayerId) : FeedOutcome :=
  match lookupP s.players i with
  | none => { result := .err (.InvalidPlayer i), state := s
              hostEvents := [], playerEvents := [] }
  | some p =>
    let score := p.score + 1
    let players := updateScore s.players i
    match s.winner with
    | none =>
      { result := .panicNoWinner
        state := { s with players := players }
        hostEvents := [.HippoEat i score], playerEvents := [] }
    | some w =>
      match lookupP players w with
      | none =>
        { result := .panicWinnerMissing
          state := { s with players := players }
          hostEvents := [.HippoEat i score], playerEvents := [] }
      | some wp =>
        if score > wp.score ∧ i ≠ w then
          { result := .ok score
            state := { s with players := players, winner := some i }
            hostEvents := [.HippoEat i score, .UpdateWinner i]
            playerEvents := [.UpdateWinner i] }
        else
          { result := .ok score
            state := { s with players := players }
            hostEvents := [.HippoEat i score]
            playerEvents := [] }

/-- One player's tick update when its hippo eats: a ball is consumed, a point
is scored, and the next eat time advances by the fixed 750 ms interval. -/

def eatUpd (p : Player) : Player :=
  { p with balls := p.balls - 1, score := p.score + 1
           next_eat_time := p.next_eat_time + 750 }

/-- The body of the retain closure in start_game_loop, per entry: players not
yet eligible are kept untouched; an eligible player with balls eats (HippoEat
to both hubs); an eligible player with no balls is dropped (PlayerLose to both
hubs). -/

def tick_entry (now : Nat) (e : PlayerId × Player) :
    Option (PlayerId × Player) × List HostBroadcastGame × List PlayerBroadcastGame :=
  if now < e.2.next_eat_time then (some e, [], [])
  else if 0 < e.2.balls then
    let p := eatUpd e.2
    (some (e.1, p), [.HippoEat e.1 p.score p.balls], [.HippoEat e.1 p.score p.balls])
  else
    (none, [.PlayerLose e.1], [.PlayerLose e.1 e.2.score])

/-- Result of one whole simulation tick. -/

structure TickOutcome where
  state : GameState
  hostEvents : List HostBroadcastGame
  playerEvents : List PlayerBroadcastGame

/-- players.retain over the association list, collecting the broadcast
messages in iteration order. -/

def tickPlayers (now : Nat) : PlayerMap →
    PlayerMap × List HostBroadcastGame × List PlayerBroadcastGame
  | [] => ([], [], [])
  | e :: rest =>
    let r := tick_entry now e
    let rr := tickPlayers now rest
    (match r.1 with
     | some x => x :: rr.1
     | none => rr.1,
     r.2.1 ++ rr.2.1, r.2.2 ++ rr.2.2)

/-- One iteration of the start_game_loop body (game.rs): run retain over the
player map under the write lock. The winner and nose-goes state are untouched
by the loop. -/

def tick (s : GameState) (now : Nat) : TickOutcome :=
  let t := tickPlayers now s.players
  { state := { s with players := t.1 }, hostEvents := t.2.1, playerEvents := t.2.2 }

/-- api.rs PlayerData construction shared by get_player and get_players:
has_crown is Some(player.id) == winner. -/

def playerData (p : Player) (winner : Option PlayerId) : PlayerData :=
  { id := p.id, name := p.username, score := p.score
    has_crown := decide (some p.id = winner) }

/-- api.rs get_player. -/

def get_player (s : GameState) (i : PlayerId) : Option PlayerData :=
  (lookupP s.players i).map fun p => playerData p s.winner

/-- api.rs get_players (the /players scoreboard listing). -/

def get_players (s : GameState) : List PlayerData :=
  s.players.map fun e => playerData e.2 s.winner

/-- The crown invariant as a boolean check: either nobody is registered and
the crown is empty, or the crown holder is registered and its score is at
least every registered player's score. -/

def crownInvB (s : GameState) : Bool :=
  match s.winner with
  | none => s.players.isEmpty
  | some w =>
    match lookupP s.players w with
    | none => false
    | some wp => s.players.all fun e => decide (e.2.score ≤ wp.score)

/-- Modelled from the spec: starting an elimination round (spec 4.6) is not
under src/; it is only valid from Inactive and moves to InProgress with the
given remaining set. -/

def start_round (s : GameState) (ids : List PlayerId) : GameState :=
  match s.nose with
  | .Inactive => { s with nose := .InProgress ids }
  | .InProgress _ => s

/-- States reachable from process start through the core operations. -/

inductive Reachable : GameState → Prop where
  | init : Reachable initialState
  | register (s : GameState) (name : String) (balls next_eat : Nat)
      (h : Reachable s) : Reachable (register_player s name balls next_eat).state
  | feed (s : GameState) (i : PlayerId) (h : Reachable s) :
      Reachable (feed_player s i).state
  | tick (s : GameState) (now : Nat) (h : Reachable s) :
      Reachable (tick s now).state
  | start (s : GameState) (ids : List PlayerId) (h : Reachable s) :
      Reachable (start_round s ids)
  | leave (s : GameState) (i : PlayerId) (h : Reachable s) :
      Reachable { s with nose := (nose_goes s.nose i).2 }

/-- Observable events of one start_game_loop iteration, in program order:
taking and dropping the write lock, each broadcast send, and the sleep. -/

inductive TickEvent where
  | lockAcquire
  | sendHost (msg : HostBroadcastGame)
  | sendPlayer (msg : PlayerBroadcastGame)
  | lockRelease
  | sleep (ms : Nat)
deriving DecidableEq

/-- The sends that one retain-closure execution performs for one entry, in
source order (host first, then player). -/

def entrySends (now : Nat) (e : PlayerId × Player) : List TickEvent :=
  (tick_entry now e).2.1.map .sendHost ++ (tick_entry now e).2.2.map .sendPlayer

/-- All sends of one tick, in iteration order. -/

def tickMid (s : GameState) (now : Nat) : List TickEvent :=
  (s.players.map (entrySends now)).flatten

/-- The event trace of one start_game_loop iteration: the write lock is taken,
retain runs (performing its sends inside the locked scope), the scope ends,
and the thread sleeps a constant 100 ms. -/

def tickTrace (s : GameState) (now : Nat) : List TickEvent :=
  .lockAcquire :: tickMid s now ++ [.lockRelease, .sleep 100]

/-- Recognize send events. -/

def isSend : TickEvent → Bool
  | .sendHost _ => true
  | .sendPlayer _ => true
  | _ => false

/-- Recognize the lock-release event. -/

def isRelease : TickEvent → Bool
  | .lockRelease => true
  | _ => false

/-- Number of sends performed while the lock is held (before the release). -/

def sendsWhileLocked (tr : List TickEvent) : Nat :=
  ((tr.takeWhile fun e => !isRelease e).filter isSend).length

/-- Number of sends performed after the lock is released. -/

def sendsAfterRelease (tr : List TickEvent) : Nat :=
  ((tr.dropWhile fun e => !isRelease e).filter isSend).length

/-- The sleep duration of a trace, if any. -/

def sleepOf (tr : List TickEvent) : Option Nat :=
  (tr.filterMap fun e => match e with | .sleep n => some n | _ => none).head?

/-- Claim C8 formalized: on every tick, the registry lock is released before
any broadcast send. -/

def c8_claimP : Prop :=
  ∀ (s : GameState) (now : Nat), sendsWhileLocked (tickTrace s now) = 0

/-- Modelled from the spec: the sleep between ticks is the remaining time
budget, the fixed period minus the time already spent processing the tick. -/

def specSleepMs (period elapsed : Nat) : Nat := period - elapsed

/-- Claim C9 formalized: on every iteration the sleep duration equals the
fixed period minus the processing time elapsed in that tick. -/

def c9_claimP : Prop :=
  ∀ (s : GameState) (now elapsed : Nat), elapsed ≤ 100 →
    sleepOf (tickTrace s now) = some (specSleepMs 100 elapsed)

/-- Counter-cell contents after k next_id calls from process start. -/

def genCounter : Nat → Nat
  | 0 => 0
  | k + 1 => (next_id (genCounter k)).2

/-- The id returned by the (k+1)-st next_id call (0-based position k). -/

def nthId (k : Nat) : PlayerId := (next_id (genCounter k)).1

/-- One register_player call with fixed request parameters, used to model a
register-only sequence of requests. -/

def regStep (s : GameState) : GameState := (register_player s "A" 0 0).state

/-- State after k register calls from process start. -/

def regSeq : Nat → GameState
  | 0 => initialState
  | k + 1 => regStep (regSeq k)

/-- Elimination round started with players 1, 2, 3 (end-to-end scenario C). -/

def noseRound0 : NoseGoes := .InProgress [⟨1⟩, ⟨2⟩, ⟨3⟩]

/-- The round state after players 1 and 2 leave and player 3 receives the
terminal Died outcome. -/

def noseRound3 : NoseGoes :=
  (nose_goes (nose_goes (nose_goes noseRound0 ⟨1⟩).2 ⟨2⟩).2 ⟨3⟩).2

/-- A reachable run for C1: register player 0 (1 ball, eats at 750 ms),
register player 1 (1 ball, eats at 850 ms), feed player 1 (crown moves to 1),
feed player 0 (tie, crown stays with 1), then tick at 750 ms: player 0 eats
and reaches score 2 while the crown holder 1 sits at score 1. -/

def badC1 : GameState :=
  (tick ((feed_player ((feed_player ((register_player
    ((register_player initialState "A" 1 750).state) "B" 1 850).state)
    ⟨1⟩).state) ⟨0⟩).state) 750).state

/-- A small well-formed two-player state used by witnesses: player 0 holds
the crown with score 3; player 1 has score 1. -/

def sampleState : GameState :=
  { players := [(⟨0⟩, ⟨⟨0⟩, "A", 3, 1, 750⟩), (⟨1⟩, ⟨⟨1⟩, "B", 1, 2, 900⟩)]
    winner := some ⟨0⟩, nose := .Inactive, idGen := 2 }

/-- A reachable run for C2: register player 0 with no balls (eligible at 0),
register player 1 with 5 balls (eligible much later), then tick at time 0:
player 0 — the crown holder — is eliminated and removed from the map, while
the winner cell still names it. -/

def badC2 : GameState :=
  (tick ((register_player ((register_player initialState "A" 0 0).state)
    "B" 5 1000000).state) 0).state

/-- Count of UpdateWinner (crown-change) events in a host event list. -/

def countUW (l : List HostBroadcastApi) : Nat :=
  (l.filter fun e => match e with | .UpdateWinner _ => true | _ => false).length

/-- Feed the same player n times, returning the final state and the total
number of crown-change events emitted to hosts. -/

def feedRun (i : PlayerId) : Nat → GameState → GameState × Nat
  | 0, s => (s, 0)
  | n + 1, s =>
    let out := feed_player s i
    let rest := feedRun i n out.state
    (rest.1, countUW out.hostEvents + rest.2)

/-- End-to-end scenario B start state: register P1 then P2 (crown on P1,
both scores 0). -/

def scenarioB : GameState :=
  (register_player (register_player initialState "P1" 0 0).state "P2" 0 0).state

/-- One-player state whose tick performs sends: eligible at time 0 with one
ball. -/

def c8SampleState : GameState :=
  { players := [(⟨0⟩, ⟨⟨0⟩, "A", 0, 1, 0⟩)], winner := some ⟨0⟩
    nose := .Inactive, idGen := 1 }

theorem lookupP_eq_none_iff (m : PlayerMap) (x : PlayerId) :
    lookupP m x = none ↔ x ∉ m.map Prod.fst := by
  induction m with
  | nil => simp [lookupP]
  | cons e rest ih =>
    by_cases h : e.1 = x
    · simp [lookupP, h]
    · have hxe : ¬ x = e.1 := fun hh => h hh.symm
      simp [lookupP, h, hxe, ih]

theorem lookupP_append_left {m : PlayerMap} {x : PlayerId} {p : Player}
    (h : lookupP m x = some p) (l : PlayerMap) :
    lookupP (m ++ l) x = some p := by
  induction m with
  | nil => simp [lookupP] at h
  | cons e rest ih =>
    by_cases he : e.1 = x
    · simp [lookupP, he] at h ⊢; exact h
    · simp [lookupP, he] at h ⊢; exact ih h

theorem lookup_updateScore_self (m : PlayerMap) (i : PlayerId) :
    lookupP (updateScore m i) i = (lookupP m i).map bumpScore := by
  induction m with
  | nil => simp [lookupP, updateScore]
  | cons e rest ih =>
    by_cases h : e.1 = i
    · simp [lookupP, updateScore, h]
    · simp [lookupP, updateScore, h]
      simpa [updateScore] using ih

theorem lookup_updateScore_ne (m : PlayerMap) {i w : PlayerId} (h : w ≠ i) :
    lookupP (updateScore m i) w = lookupP m w := by
  induction m with
  | nil => simp [lookupP, updateScore]
  | cons e rest ih =>
    by_cases he : e.1 = i
    · have hiw : ¬ i = w := fun hh => h hh.symm
      simp only [updateScore, List.map_cons, lookupP, he, if_pos]
      simp only [hiw, if_false]
      simpa [updateScore] using ih
    · by_cases hw : e.1 = w
      · simp [lookupP, updateScore, he, hw, h]
      · simp only [updateScore, List.map_cons, lookupP, he, if_false, hw]
        simpa [updateScore] using ih

theorem lookupP_of_mem_nodup {m : PlayerMap} (hnd : (m.map Prod.fst).Nodup)
    {e : PlayerId × Player} (he : e ∈ m) : lookupP m e.1 = some e.2 := by
  induction m with
  | nil => simp at he
  | cons a rest ih =>
    rcases List.mem_cons.mp he with rfl | hr
    · simp [lookupP]
    · have h1 : a.1 ∉ rest.map Prod.fst := (List.nodup_cons.mp (by simpa using hnd)).1
      have h2 : (rest.map Prod.fst).Nodup := (List.nodup_cons.mp (by simpa using hnd)).2
      have hne : a.1 ≠ e.1 := fun hh => h1 (hh ▸ List.mem_map_of_mem Prod.fst hr)
      simp [lookupP, hne]
      exact ih h2 hr

theorem feed_preserves_crownInv (s : GameState) (i : PlayerId)
    (hnd : (s.players.map Prod.fst).Nodup) (h : crownInvB s = true) :
    crownInvB (feed_player s i).state = true := by
  cases hlook : lookupP s.players i with
  | none => simpa [feed_player, hlook] using h
  | some p =>
    cases hw : s.winner with
    | none =>
      exfalso
      simp only [crownInvB, hw] at h
      have hpl : s.players = [] := by
        cases hm : s.players with
        | nil => rfl
        | cons a l => rw [hm] at h; simp [List.isEmpty] at h
      rw [hpl] at hlook
      simp [lookupP] at hlook
    | some w =>
      have hinv := h
      simp only [crownInvB, hw] at hinv
      cases hwl : lookupP s.players w with
      | none => rw [hwl] at hinv; exact absurd hinv (by simp)
      | some wp =>
        rw [hwl] at hinv
        rw [List.all_eq_true] at hinv
        have hsc : ∀ e ∈ s.players, e.2.score ≤ wp.score := by
          intro e he
          have := hinv e he
          simpa using this
        by_cases hiw : w = i
        · subst hiw
          have hpw : p = wp := by rw [hlook] at hwl; exact (Option.some.inj hwl)
          subst hpw
          have hl2 : lookupP (updateScore s.players w) w = some (bumpScore p) := by
            rw [lookup_updateScore_self, hlook]; rfl
          simp only [feed_player, hlook, hw, hl2]
          rw [if_neg (by simp [bumpScore])]
          simp only [crownInvB, hw, hl2, List.all_eq_true]
          intro e' he'
          obtain ⟨e, he, heq⟩ := List.mem_map.mp he'
          by_cases hk : e.1 = w
          · have hep : e.2 = p := by
              have hle := lookupP_of_mem_nodup hnd he
              rw [hk, hlook] at hle
              exact (Option.some.inj hle).symm
            rw [if_pos hk] at heq
            rw [← heq]
            simp [bumpScore, hep]
          · rw [if_neg hk] at heq
            rw [← heq]
            have := hsc e he
            simp only [bumpScore, decide_eq_true_eq]
            omega
        · have hl2 : lookupP (updateScore s.players i) w = some wp := by
            rw [lookup_updateScore_ne s.players (fun hh => hiw hh), hwl]
          have hli : lookupP (updateScore s.players i) i = some (bumpScore p) := by
            rw [lookup_updateScore_self, hlook]; rfl
          by_cases hgt : p.score + 1 > wp.score
          · have hcond : p.score + 1 > wp.score ∧ i ≠ w := ⟨hgt, fun hh => hiw hh.symm⟩
            simp only [feed_player, hlook, hw, hl2]
            rw [if_pos hcond]
            simp only [crownInvB, hli, List.all_eq_true]
            intro e' he'
            obtain ⟨e, he, heq⟩ := List.mem_map.mp he'
            by_cases hk : e.1 = i
            · have hep : e.2 = p := by
                have hle := lookupP_of_mem_nodup hnd he
                rw [hk, hlook] at hle
                exact (Option.some.inj hle).symm
              rw [if_pos hk] at heq
              rw [← heq]
              simp [bumpScore, hep]
            · rw [if_neg hk] at heq
              rw [← heq]
              have := hsc e he
              simp only [bumpScore, decide_eq_true_eq]
              omega
          · have hcond : ¬ (p.score + 1 > wp.score ∧ i ≠ w) := fun hc => hgt hc.1
            simp only [feed_player, hlook, hw, hl2]
            rw [if_neg hcond]
            simp only [crownInvB, hw, hl2, List.all_eq_true]
            intro e' he'
            obtain ⟨e, he, heq⟩ := List.mem_map.mp he'
            by_cases hk : e.1 = i
            · have hep : e.2 = p := by
                have hle := lookupP_of_mem_nodup hnd he
                rw [hk, hlook] at hle
                exact (Option.some.inj hle).symm
              rw [if_pos hk] at heq
              rw [← heq]
              simp only [bumpScore, hep, decide_eq_true_eq]
              omega
            · rw [if_neg hk] at heq
              rw [← heq]
              have := hsc e he
              simpa using this

theorem register_preserves_crownInv (s : GameState) (name : String)
    (balls next_eat : Nat)
    (hfresh : lookupP s.players ⟨s.idGen⟩ = none) (h : crownInvB s = true) :
    crownInvB (register_player s name balls next_eat).state = true := by
  have hold : (lookupP s.players (next_id s.idGen).1).isSome = false := by
    simp [next_id, hfresh]
  have hins : insertP s.players (next_id s.idGen).1
      { id := (next_id s.idGen).1, username := name, score := 0, balls := balls
        next_eat_time := next_eat } =
      s.players ++ [((next_id s.idGen).1,
        { id := (next_id s.idGen).1, username := name, score := 0, balls := balls
          next_eat_time := next_eat })] := by
    simp only [insertP, next_id, hfresh]
    simp
  cases hw : s.winner with
  | none =>
    have hpl : s.players = [] := by
      simp only [crownInvB, hw] at h
      cases hm : s.players with
      | nil => rfl
      | cons a l => rw [hm] at h; simp [List.isEmpty] at h
    simp only [register_player, hold, Bool.false_eq_true, if_false, hins, hw, hpl]
    simp [crownInvB, insertP, lookupP]
  | some w =>
    have hinv := h
    simp only [crownInvB, hw] at hinv
    cases hwl : lookupP s.players w with
    | none => rw [hwl] at hinv; exact absurd hinv (by simp)
    | some wp =>
      rw [hwl] at hinv
      simp only [register_player, hold, Bool.false_eq_true, if_false, hins, hw]
      simp only [Option.isNone_some, Bool.false_eq_true, if_false]
      simp only [crownInvB, hw, lookupP_append_left hwl]
      simp only [List.all_append, Bool.and_eq_true]
      exact ⟨hinv, by simp⟩

theorem tick_winner_unchanged (s : GameState) (now : Nat) :
    (tick s now).state.winner = s.winner := rfl

theorem tickPlayers_keys_sub (now : Nat) (m : PlayerMap) :
    ∀ x ∈ (tickPlayers now m).1.map Prod.fst, x ∈ m.map Prod.fst := by
  induction m with
  | nil => simp [tickPlayers]
  | cons e rest ih =>
    intro x hx
    simp only [tickPlayers] at hx
    by_cases h1 : now < e.2.next_eat_time
    · simp only [tick_entry, h1, if_pos] at hx
      rcases List.mem_map.mp hx with ⟨a, ha, rfl⟩
      rcases List.mem_cons.mp ha with rfl | hr
      · simp
      · simp only [List.map_cons, List.mem_cons]
        exact Or.inr (ih _ (List.mem_map_of_mem Prod.fst hr))
    · by_cases h2 : 0 < e.2.balls
      · simp only [tick_entry, h1, if_neg, if_pos, h2, if_true] at hx
        rcases List.mem_map.mp hx with ⟨a, ha, rfl⟩
        rcases List.mem_cons.mp ha with rfl | hr
        · simp
        · simp only [List.map_cons, List.mem_cons]
          exact Or.inr (ih _ (List.mem_map_of_mem Prod.fst hr))
      · simp only [tick_entry, h1, h2, if_neg, if_false] at hx
        simp only [List.map_cons, List.mem_cons]
        exact Or.inr (ih _ hx)

theorem lookupP_tickPlayers (now : Nat) (i : PlayerId) :
    ∀ (m : PlayerMap) (p : Player), (m.map Prod.fst).Nodup →
      lookupP m i = some p → p.next_eat_time ≤ now →
      lookupP (tickPlayers now m).1 i =
        if p.balls = 0 then none else some (eatUpd p) := by
  intro m
  induction m with
  | nil => intro p _ hl; simp [lookupP] at hl
  | cons e rest ih =>
    intro p hnd hl helig
    have hnd1 : e.1 ∉ rest.map Prod.fst :=
      (List.nodup_cons.mp (by simpa using hnd)).1
    have hnd2 : (rest.map Prod.fst).Nodup :=
      (List.nodup_cons.mp (by simpa using hnd)).2
    by_cases h1 : e.1 = i
    · have hp : e.2 = p := by
        simp only [lookupP, h1, if_pos] at hl
        exact Option.some.inj hl
      have hlt : ¬ now < p.next_eat_time := Nat.not_lt.mpr helig
      have hlt2 : ¬ now < e.2.next_eat_time := by rw [hp]; exact hlt
      by_cases hb : p.balls = 0
      · have hb2 : ¬ 0 < e.2.balls := by rw [hp, hb]; omega
        simp only [tickPlayers, tick_entry, hlt2, if_neg, hb2, if_false]
        rw [if_pos hb]
        rw [lookupP_eq_none_iff]
        intro hmem
        exact hnd1 (h1 ▸ tickPlayers_keys_sub now rest i hmem)
      · have hb2 : 0 < e.2.balls := by rw [hp]; omega
        simp only [tickPlayers, tick_entry, hlt2, hb2, if_neg, if_true, if_pos]
        simp only [lookupP, h1, if_pos, hp]
        rw [if_neg hb]
    · have hl2 : lookupP rest i = some p := by
        simpa [lookupP, h1] using hl
      have hrec := ih p hnd2 hl2 helig
      by_cases hlt : now < e.2.next_eat_time
      · simp only [tickPlayers, tick_entry, hlt, if_pos]
        simpa [lookupP, h1] using hrec
      · by_cases hb : 0 < e.2.balls
        · simp only [tickPlayers, tick_entry, hlt, hb, if_neg, if_true, if_pos]
          simpa [lookupP, h1] using hrec
        · simp only [tickPlayers, tick_entry, hlt, hb, if_neg, if_false]
          exact hrec

theorem tickPlayers_mem (now : Nat) (m : PlayerMap) :
    ∀ x ∈ (tickPlayers now m).1, ∃ a ∈ m, x.1 = a.1 ∧ x.2.id = a.2.id := by
  induction m with
  | nil => simp [tickPlayers]
  | cons e rest ih =>
    intro x hx
    simp only [tickPlayers] at hx
    by_cases h1 : now < e.2.next_eat_time
    · simp only [tick_entry, h1, if_pos] at hx
      rcases List.mem_cons.mp hx with heq | hr
      · exact ⟨e, List.mem_cons_self _ _, by rw [heq], by rw [heq]⟩
      · obtain ⟨a, ha, hk, hid⟩ := ih x hr
        exact ⟨a, List.mem_cons_of_mem _ ha, hk, hid⟩
    · by_cases h2 : 0 < e.2.balls
      · simp only [tick_entry, h1, h2, if_neg, if_true, if_pos] at hx
        rcases List.mem_cons.mp hx with heq | hr
        · exact ⟨e, List.mem_cons_self _ _, by rw [heq], by rw [heq]; simp [eatUpd]⟩
        · obtain ⟨a, ha, hk, hid⟩ := ih x hr
          exact ⟨a, List.mem_cons_of_mem _ ha, hk, hid⟩
      · simp only [tick_entry, h1, h2, if_neg, if_false] at hx
        obtain ⟨a, ha, hk, hid⟩ := ih x hx
        exact ⟨a, List.mem_cons_of_mem _ ha, hk, hid⟩

theorem tickMid_sends (s : GameState) (now : Nat) :
    ∀ ev ∈ tickMid s now, isSend ev = true := by
  intro ev hev
  simp only [tickMid, List.mem_flatten] at hev
  obtain ⟨l, hl, hevl⟩ := hev
  obtain ⟨e, _, rfl⟩ := List.mem_map.mp hl
  simp only [entrySends, List.mem_append] at hevl
  rcases hevl with hh | hp
  · obtain ⟨msg, _, rfl⟩ := List.mem_map.mp hh
    rfl
  · obtain ⟨msg, _, rfl⟩ := List.mem_map.mp hp
    rfl

theorem isRelease_eq_false_of_isSend {ev : TickEvent} (h : isSend ev = true) :
    isRelease ev = false := by
  cases ev <;> simp_all [isSend, isRelease]

theorem takeWhile_sends (mid : List TickEvent)
    (h : ∀ ev ∈ mid, isSend ev = true) :
    (mid ++ [TickEvent.lockRelease, TickEvent.sleep 100]).takeWhile
      (fun e => !isRelease e) = mid := by
  induction mid with
  | nil => simp [List.takeWhile, isRelease]
  | cons a l ih =>
    have ha := isRelease_eq_false_of_isSend (h a (List.mem_cons_self _ _))
    simp only [List.cons_append, List.takeWhile_cons, ha, Bool.not_false, if_true]
    rw [ih fun ev hev => h ev (List.mem_cons_of_mem _ hev)]

theorem dropWhile_sends (mid : List TickEvent)
    (h : ∀ ev ∈ mid, isSend ev = true) :
    (mid ++ [TickEvent.lockRelease, TickEvent.sleep 100]).dropWhile
      (fun e => !isRelease e) = [TickEvent.lockRelease, TickEvent.sleep 100] := by
  induction mid with
  | nil => simp [List.dropWhile, isRelease]
  | cons a l ih =>
    have ha := isRelease_eq_false_of_isSend (h a (List.mem_cons_self _ _))
    simp only [List.cons_append, List.dropWhile_cons, ha, Bool.not_false, if_true]
    exact ih fun ev hev => h ev (List.mem_cons_of_mem _ hev)

theorem filter_sends (mid : List TickEvent)
    (h : ∀ ev ∈ mid, isSend ev = true) : mid.filter isSend = mid :=
  List.filter_eq_self.mpr h

theorem filterMap_sends_sleep (mid : List TickEvent)
    (h : ∀ ev ∈ mid, isSend ev = true) :
    mid.filterMap (fun e => match e with | .sleep n => some n | _ => none)
      = [] := by
  induction mid with
  | nil => rfl
  | cons a l ih =>
    have ha := h a (List.mem_cons_self _ _)
    have hl := ih fun ev hev => h ev (List.mem_cons_of_mem _ hev)
    cases a <;> simp_all [isSend, List.filterMap_cons]

theorem genCounter_eq (k : Nat) : genCounter k = k % USIZE_MOD := by
  induction k with
  | zero => simp [genCounter]
  | succ k ih =>
    simp only [genCounter, next_id, ih]
    rw [Nat.mod_add_mod]

theorem nthId_eq (k : Nat) : nthId k = ⟨k % USIZE_MOD⟩ := by
  simp [nthId, next_id, genCounter_eq]

theorem regSeq_spec : ∀ k : Nat, k ≤ USIZE_MOD →
    (regSeq k).idGen = k % USIZE_MOD ∧
    (regSeq k).players.map Prod.fst = (List.range k).map PlayerId.mk := by
  intro k
  induction k with
  | zero => intro _; simp [regSeq, initialState]
  | succ k ih =>
    intro hk
    have hklt : k < USIZE_MOD := Nat.lt_of_lt_of_le (Nat.lt_succ_self k) hk
    obtain ⟨hgen, hkeys⟩ := ih (Nat.le_of_lt hklt)
    have hgenk : (regSeq k).idGen = k := by rw [hgen, Nat.mod_eq_of_lt hklt]
    have hfresh : lookupP (regSeq k).players (next_id (regSeq k).idGen).1 = none := by
      rw [lookupP_eq_none_iff, hkeys, hgenk]
      intro hmem
      obtain ⟨j, hj, hje⟩ := List.mem_map.mp hmem
      have hjk : j = k := congrArg PlayerId.val hje
      have hjlt : j < k := List.mem_range.mp hj
      omega
    have hold : (lookupP (regSeq k).players (next_id (regSeq k).idGen).1).isSome
        = false := by rw [hfresh]; rfl
    have hins : insertP (regSeq k).players (next_id (regSeq k).idGen).1
        { id := (next_id (regSeq k).idGen).1, username := "A", score := 0
          balls := 0, next_eat_time := 0 } =
        (regSeq k).players ++ [((next_id (regSeq k).idGen).1,
          { id := (next_id (regSeq k).idGen).1, username := "A", score := 0
            balls := 0, next_eat_time := 0 })] := by
      simp [insertP, hfresh]
    constructor
    · show (regStep (regSeq k)).idGen = (k + 1) % USIZE_MOD
      simp only [regStep, register_player, hold, Bool.false_eq_true, if_false]
      simp [next_id, hgenk]
    · show (regStep (regSeq k)).players.map Prod.fst = _
      simp only [regStep, register_player, hold, Bool.false_eq_true, if_false]
      simp only [hins, List.map_append, hkeys]
      simp [next_id, hgenk, List.range_succ]

/-- C3 counterexample: running scenario C (players 1, 2 leave with Survived,
player 3 gets Died), a fourth attempt_leave by player 3 returns Died again,
not InvalidRound as the claim states for a fourth attempt by any id. -/

theorem c3_counterexample :
    (nose_goes noseRound0 ⟨1⟩).1 = .ok .Survived ∧
    (nose_goes (nose_goes noseRound0 ⟨1⟩).2 ⟨2⟩).1 = .ok .Survived ∧
    (nose_goes (nose_goes (nose_goes noseRound0 ⟨1⟩).2 ⟨2⟩).2 ⟨3⟩).1
      = .ok .Died ∧
    (nose_goes noseRound3 ⟨3⟩).1 = .ok .Died ∧
    ((nose_goes noseRound3 ⟨3⟩).1 = .error .InvalidNoesGoes) = False :=
  ⟨rfl, rfl, rfl, rfl, eq_false fun h => by
    have h2 : (Except.ok NoseGoesResponse.Died : Except Error NoseGoesResponse)
        = .error .InvalidNoesGoes := h
    exact Except.noConfusion h2⟩

/-- C3 amended: for a round over a duplicate-free remaining set, attempt_leave
while Inactive or by an id outside the set returns InvalidRound and leaves the
state unchanged; with more than one player remaining it returns Survived and
removes exactly that one player; with exactly one remaining it returns Died
and leaves the round InProgress unchanged — so after the terminal Died, a
further attempt by any other id returns InvalidRound, while the last player's
own further attempts return Died again. -/

theorem c3_amended (remaining : List PlayerId) (i : PlayerId)
    (hnd : remaining.Nodup) :
    nose_goes .Inactive i = (.error .InvalidNoesGoes, .Inactive) ∧
    (i ∉ remaining →
      nose_goes (.InProgress remaining) i =
        (.error .InvalidNoesGoes, .InProgress remaining)) ∧
    (i ∈ remaining → 1 < remaining.length →
      nose_goes (.InProgress remaining) i =
        (.ok .Survived, .InProgress (remaining.erase i)) ∧
      (remaining.erase i).length + 1 = remaining.length ∧
      i ∉ remaining.erase i) ∧
    (i ∈ remaining → remaining.length = 1 →
      nose_goes (.InProgress remaining) i = (.ok .Died, .InProgress remaining)) := by
  refine ⟨rfl, ?_, ?_, ?_⟩
  · intro h
    simp [nose_goes, h]
  · intro hm hl
    refine ⟨by simp [nose_goes, hm, hl], ?_, ?_⟩
    · rw [List.length_erase_of_mem hm]
      have := List.length_pos_of_mem hm
      omega
    · intro hmem
      exact ((List.Nodup.mem_erase_iff hnd).mp hmem).1 rfl
  · intro hm hl
    simp [nose_goes, hm, hl]

/-- C3 witness: the amended statement instantiated at the round with players
5 and 6 and caller 5. -/

theorem c3_amended_witness :
    nose_goes .Inactive (⟨5⟩ : PlayerId) = (.error .InvalidNoesGoes, .Inactive) ∧
    ((⟨5⟩ : PlayerId) ∉ ([⟨5⟩, ⟨6⟩] : List PlayerId) →
      nose_goes (.InProgress [⟨5⟩, ⟨6⟩]) ⟨5⟩ =
        (.error .InvalidNoesGoes, .InProgress [⟨5⟩, ⟨6⟩])) ∧
    ((⟨5⟩ : PlayerId) ∈ ([⟨5⟩, ⟨6⟩] : List PlayerId) →
      1 < ([⟨5⟩, ⟨6⟩] : List PlayerId).length →
      nose_goes (.InProgress [⟨5⟩, ⟨6⟩]) ⟨5⟩ =
        (.ok .Survived, .InProgress (([⟨5⟩, ⟨6⟩] : List PlayerId).erase ⟨5⟩)) ∧
      (([⟨5⟩, ⟨6⟩] : List PlayerId).erase ⟨5⟩).length + 1
        = ([⟨5⟩, ⟨6⟩] : List PlayerId).length ∧
      (⟨5⟩ : PlayerId) ∉ ([⟨5⟩, ⟨6⟩] : List PlayerId).erase ⟨5⟩) ∧
    ((⟨5⟩ : PlayerId) ∈ ([⟨5⟩, ⟨6⟩] : List PlayerId) →
      ([⟨5⟩, ⟨6⟩] : List PlayerId).length = 1 →
      nose_goes (.InProgress [⟨5⟩, ⟨6⟩]) ⟨5⟩ =
        (.ok .Died, .InProgress [⟨5⟩, ⟨6⟩])) :=
  c3_amended [⟨5⟩, ⟨6⟩] ⟨5⟩ (by decide)

/-- C10 (confirmed): when exactly one player remains, attempt_leave by that
player returns Died and leaves the round state completely unchanged, so the
terminal outcome repeats on every further call and no automatic reset to
Inactive occurs. -/

theorem c10_terminal_repeatable (remaining : List PlayerId) (i : PlayerId)
    (hm : i ∈ remaining) (hl : remaining.length = 1) :
    nose_goes (.InProgress remaining) i = (.ok .Died, .InProgress remaining) ∧
    ∀ n : Nat, Nat.iterate (fun st => (nose_goes st i).2) n
      (.InProgress remaining) = NoseGoes.InProgress remaining := by
  have hfx : (nose_goes (.InProgress remaining) i).2 = .InProgress remaining := by
    simp [nose_goes, hm, hl]
  refine ⟨by simp [nose_goes, hm, hl], ?_⟩
  intro n
  induction n with
  | zero => rfl
  | succ n ihn =>
    rw [Function.iterate_succ_apply, hfx]
    exact ihn

/-- C10 witness: the terminal-repeat property at the singleton round of
player 0. -/

theorem c10_terminal_repeatable_witness :
    nose_goes (.InProgress [⟨0⟩]) (⟨0⟩ : PlayerId)
      = (.ok .Died, .InProgress [⟨0⟩]) ∧
    ∀ n : Nat, Nat.iterate (fun st => (nose_goes st ⟨0⟩).2) n
      (.InProgress [⟨0⟩]) = NoseGoes.InProgress [⟨0⟩] :=
  c10_terminal_repeatable [⟨0⟩] ⟨0⟩ (by decide) (by decide)

/-- C4 (confirmed): feeding an id that is not in the registry returns the
InvalidPlayer error and leaves the whole state — every player's score,
resources and membership, the winner, the round — exactly unchanged, sending
no events. -/

theorem c4_feed_unregistered (s : GameState) (i : PlayerId)
    (h : lookupP s.players i = none) :
    feed_player s i = { result := .err (.InvalidPlayer i), state := s
                        hostEvents := [], playerEvents := [] } := by
  simp [feed_player, h]

/-- C4 witness: feeding id 0 in the empty initial state. -/

theorem c4_feed_unregistered_witness :
    feed_player initialState ⟨0⟩ =
      { result := .err (.InvalidPlayer ⟨0⟩), state := initialState
        hostEvents := [], playerEvents := [] } :=
  c4_feed_unregistered initialState ⟨0⟩ rfl

/-- C1 counterexample: the run above is reachable and violates the crown
invariant — the simulation tick increments scores without ever invoking the
crown-update rule, unlike the claim states. -/

theorem c1_counterexample : Reachable badC1 ∧ crownInvB badC1 = false :=
  ⟨by
    unfold badC1
    exact .tick _ _ (.feed _ _ (.feed _ _
      (.register _ _ _ _ (.register _ _ _ _ .init)))),
   by decide⟩

/-- C1 amended: the crown invariant is preserved by feed (over a
duplicate-free registry) and by register (when the generated id is fresh),
but the simulation tick performs no crown update at all — it leaves the
winner cell untouched while incrementing scores, so the invariant is not
preserved by ticks. -/

theorem c1_amended :
    (∀ (s : GameState) (i : PlayerId), (s.players.map Prod.fst).Nodup →
      crownInvB s = true → crownInvB (feed_player s i).state = true) ∧
    (∀ (s : GameState) (name : String) (balls next_eat : Nat),
      lookupP s.players ⟨s.idGen⟩ = none →
      crownInvB s = true →
      crownInvB (register_player s name balls next_eat).state = true) ∧
    (∀ (s : GameState) (now : Nat), (tick s now).state.winner = s.winner) :=
  ⟨feed_preserves_crownInv, register_preserves_crownInv,
   tick_winner_unchanged⟩

/-- C1 witness: the amended preservation facts at the sample state. -/

theorem c1_amended_witness :
    crownInvB (feed_player sampleState ⟨1⟩).state = true ∧
    crownInvB (register_player sampleState "C" 1 750).state = true ∧
    (tick sampleState 750).state.winner = sampleState.winner :=
  ⟨c1_amended.1 sampleState ⟨1⟩ (by decide) (by decide),
   c1_amended.2.1 sampleState "C" 1 750 (by decide) (by decide),
   c1_amended.2.2 sampleState 750⟩

/-- C2 (code bug): after the reachable run above the crown points at an id
that is no longer registered, and feeding the surviving player 1 hits the
players.get(winner).unwrap() panic in feed_player — the claim (and the
code's own expect/unwrap assertions) say this lookup always succeeds. -/

theorem c2_dangling_crown_panic :
    Reachable badC2 ∧
    badC2.winner = some ⟨0⟩ ∧
    lookupP badC2.players ⟨0⟩ = none ∧
    (lookupP badC2.players ⟨1⟩).isSome = true ∧
    (feed_player badC2 ⟨1⟩).result = .panicWinnerMissing :=
  ⟨by
    unfold badC2
    exact .tick _ _ (.register _ _ _ _ (.register _ _ _ _ .init)),
   by decide, by decide, by decide, by decide⟩

/-- C5 (confirmed): a tick processing a player whose eligible time has
elapsed removes it from the registry when its ball count is 0 — it is then
absent from get_player and from every get_players entry — and otherwise
decrements its balls by one, increments its score by one, and advances its
next eat time by the fixed 750 ms interval. -/

theorem c5_tick_consume (s : GameState) (now : Nat) (i : PlayerId) (p : Player)
    (hnd : (s.players.map Prod.fst).Nodup)
    (hwf : ∀ e ∈ s.players, e.2.id = e.1)
    (hlook : lookupP s.players i = some p)
    (helig : p.next_eat_time ≤ now) :
    (p.balls = 0 →
      lookupP (tick s now).state.players i = none ∧
      get_player (tick s now).state i = none ∧
      ∀ pd ∈ get_players (tick s now).state, pd.id ≠ i) ∧
    (0 < p.balls →
      lookupP (tick s now).state.players i =
        some { p with balls := p.balls - 1, score := p.score + 1
                      next_eat_time := p.next_eat_time + 750 }) := by
  have hmain := lookupP_tickPlayers now i s.players p hnd hlook helig
  have hstate : (tick s now).state.players = (tickPlayers now s.players).1 := rfl
  constructor
  · intro hb
    have hnone : lookupP (tick s now).state.players i = none := by
      rw [hstate, hmain, if_pos hb]
    refine ⟨hnone, ?_, ?_⟩
    · simp [get_player, hnone]
    · intro pd hpd
      simp only [get_players, List.mem_map] at hpd
      obtain ⟨e, he, rfl⟩ := hpd
      rw [hstate] at he
      obtain ⟨a, ha, hk, hid⟩ := tickPlayers_mem now s.players e he
      have hida : e.2.id = e.1 := by rw [hid, hwf a ha, hk]
      show (playerData e.2 _).id ≠ i
      simp only [playerData]
      rw [hida]
      intro hEq
      have hkmem : i ∈ (tickPlayers now s.players).1.map Prod.fst := by
        rw [← hEq]
        exact List.mem_map_of_mem Prod.fst he
      rw [hstate] at hnone
      exact (lookupP_eq_none_iff _ i).mp hnone hkmem
  · intro hb
    rw [hstate, hmain, if_neg (by omega)]
    rfl

/-- C5 witness: in a one-player state whose player is eligible with zero
balls, the tick at time 5 removes it everywhere. -/

theorem c5_tick_consume_witness :
    ((0 : Nat) = 0 →
      lookupP (tick ⟨[(⟨0⟩, ⟨⟨0⟩, "A", 2, 0, 3⟩)], some ⟨0⟩, .Inactive, 1⟩
        5).state.players ⟨0⟩ = none ∧
      get_player (tick ⟨[(⟨0⟩, ⟨⟨0⟩, "A", 2, 0, 3⟩)], some ⟨0⟩, .Inactive, 1⟩
        5).state ⟨0⟩ = none ∧
      ∀ pd ∈ get_players (tick ⟨[(⟨0⟩, ⟨⟨0⟩, "A", 2, 0, 3⟩)], some ⟨0⟩,
        .Inactive, 1⟩ 5).state, pd.id ≠ ⟨0⟩) ∧
    ((0 : Nat) < 0 →
      lookupP (tick ⟨[(⟨0⟩, ⟨⟨0⟩, "A", 2, 0, 3⟩)], some ⟨0⟩, .Inactive, 1⟩
        5).state.players ⟨0⟩ =
        some { id := ⟨0⟩, username := "A", score := 2, balls := 0
               next_eat_time := 3 : Player }) := by
  have h := c5_tick_consume
    ⟨[(⟨0⟩, ⟨⟨0⟩, "A", 2, 0, 3⟩)], some ⟨0⟩, .Inactive, 1⟩ 5 ⟨0⟩
    ⟨⟨0⟩, "A", 2, 0, 3⟩ (by decide) (by decide) (by decide) (by decide)
  exact ⟨fun _ => h.1 rfl, fun hx => absurd hx (by omega)⟩

/-- C6 counterexample: the id counter is a wrapping fetch_add, so the call at
position 2^64 returns the same PlayerId as the call at position 0 — the ids
of an unbounded register sequence are not pairwise distinct as claimed. -/

theorem c6_counterexample :
    nthId 0 = nthId USIZE_MOD ∧ ((0 : Nat) = USIZE_MOD) = False := by
  constructor
  · rw [nthId_eq, nthId_eq, Nat.zero_mod, Nat.mod_self]
  · exact eq_false (by norm_num [USIZE_MOD])

/-- C6 amended: ids are pairwise distinct among the first 2^64 next_id calls,
and within the first 2^64 register calls the duplicate-id assertion never
fires. -/

theorem c6_amended :
    (∀ i j : Nat, i < j → j < USIZE_MOD → nthId i ≠ nthId j) ∧
    (∀ k : Nat, k < USIZE_MOD →
      (register_player (regSeq k) "A" 0 0).result
        ≠ RegisterResult.panicDuplicate) := by
  constructor
  · intro i j hij hj hEq
    rw [nthId_eq, nthId_eq] at hEq
    have hval : i % USIZE_MOD = j % USIZE_MOD := congrArg PlayerId.val hEq
    rw [Nat.mod_eq_of_lt (lt_trans hij hj), Nat.mod_eq_of_lt hj] at hval
    omega
  · intro k hk hpanic
    obtain ⟨hgen, hkeys⟩ := regSeq_spec k (Nat.le_of_lt hk)
    have hgenk : (regSeq k).idGen = k := by rw [hgen, Nat.mod_eq_of_lt hk]
    have hfresh : lookupP (regSeq k).players (next_id (regSeq k).idGen).1
        = none := by
      rw [lookupP_eq_none_iff, hkeys, hgenk]
      intro hmem
      obtain ⟨j, hj, hje⟩ := List.mem_map.mp hmem
      have hjk : j = k := congrArg PlayerId.val hje
      have hjlt := List.mem_range.mp hj
      omega
    have hold : (lookupP (regSeq k).players (next_id (regSeq k).idGen).1).isSome
        = false := by rw [hfresh]; rfl
    simp only [register_player, hold, Bool.false_eq_true, if_false] at hpanic
    simp at hpanic

/-- C6 witness: distinctness and a non-firing assertion at the first two
positions. -/

theorem c6_amended_witness :
    nthId 0 ≠ nthId 1 ∧
    (register_player (regSeq 0) "A" 0 0).result
      ≠ RegisterResult.panicDuplicate :=
  ⟨c6_amended.1 0 1 (by norm_num) (by norm_num [USIZE_MOD]),
   c6_amended.2 0 (by norm_num [USIZE_MOD])⟩

/-- C7 (confirmed): on a feed, the crown moves to the caller exactly when the
caller's new score strictly exceeds the current holder's score and the caller
is not the holder; a single UpdateWinner event is emitted exactly in that
case; a tie leaves the incumbent crowned with no event; and feeding P2 five
times past a holder stuck at 0 emits exactly one crown-change event. -/

theorem c7_crown_rule (s : GameState) (i w : PlayerId) (p wp : Player)
    (hlook : lookupP s.players i = some p)
    (hw : s.winner = some w)
    (hwl : lookupP s.players w = some wp) :
    ((feed_player s i).state.winner =
      if p.score + 1 > wp.score ∧ i ≠ w then some i else some w) ∧
    ((feed_player s i).hostEvents =
      .HippoEat i (p.score + 1) ::
        (if p.score + 1 > wp.score ∧ i ≠ w then [.UpdateWinner i] else [])) ∧
    (p.score + 1 = wp.score →
      (feed_player s i).state.winner = some w ∧
      countUW (feed_player s i).hostEvents = 0) ∧
    (feedRun ⟨1⟩ 5 scenarioB).2 = 1 := by
  by_cases hiw : w = i
  · subst hiw
    have hpw : wp = p := by rw [hlook] at hwl; exact (Option.some.inj hwl).symm
    subst hpw
    have hl2 : lookupP (updateScore s.players w) w = some (bumpScore wp) := by
      rw [lookup_updateScore_self, hlook]; rfl
    have hcode : ¬ (wp.score + 1 > (bumpScore wp).score ∧ w ≠ w) :=
      fun hc => hc.2 rfl
    have hgoal : ¬ (wp.score + 1 > wp.score ∧ w ≠ w) := fun hc => hc.2 rfl
    simp only [feed_player, hlook, hw, hl2]
    rw [if_neg hcode]
    refine ⟨?_, ?_, ?_, by decide⟩
    · rw [if_neg hgoal]
    · rw [if_neg hgoal]
    · intro _
      exact ⟨rfl, by simp [countUW]⟩
  · have hl2 : lookupP (updateScore s.players i) w = some wp := by
      rw [lookup_updateScore_ne s.players (fun hh => hiw hh), hwl]
    simp only [feed_player, hlook, hw, hl2]
    by_cases hgt : p.score + 1 > wp.score
    · have hcond : p.score + 1 > wp.score ∧ i ≠ w :=
        ⟨hgt, fun hh => hiw hh.symm⟩
      rw [if_pos hcond]
      refine ⟨?_, ?_, ?_, by decide⟩
      · rw [if_pos hcond]
      · rw [if_pos hcond]
      · intro hEqS
        exfalso
        omega
    · have hcond : ¬ (p.score + 1 > wp.score ∧ i ≠ w) := fun hc => hgt hc.1
      rw [if_neg hcond]
      refine ⟨?_, ?_, ?_, by decide⟩
      · rw [if_neg hcond]
      · rw [if_neg hcond]
      · intro _
        exact ⟨rfl, by simp [countUW]⟩

/-- C7 witness: feeding player 1 (score 1) under crown holder 0 (score 3) in
the sample state: no crown change. -/

theorem c7_crown_rule_witness :
    ((feed_player sampleState ⟨1⟩).state.winner =
      if 1 + 1 > 3 ∧ (⟨1⟩ : PlayerId) ≠ ⟨0⟩ then some ⟨1⟩ else some ⟨0⟩) ∧
    ((feed_player sampleState ⟨1⟩).hostEvents =
      .HippoEat ⟨1⟩ (1 + 1) ::
        (if 1 + 1 > 3 ∧ (⟨1⟩ : PlayerId) ≠ ⟨0⟩
         then [.UpdateWinner ⟨1⟩] else [])) ∧
    ((1 : Nat) + 1 = 3 →
      (feed_player sampleState ⟨1⟩).state.winner = some ⟨0⟩ ∧
      countUW (feed_player sampleState ⟨1⟩).hostEvents = 0) ∧
    (feedRun ⟨1⟩ 5 scenarioB).2 = 1 :=
  c7_crown_rule sampleState ⟨1⟩ ⟨0⟩ ⟨⟨1⟩, "B", 1, 2, 900⟩ ⟨⟨0⟩, "A", 3, 1, 750⟩
    (by decide) rfl (by decide)

/-- C8 counterexample: the game loop sends its broadcasts inside the
write-lock scope — on the sample tick two sends happen while the lock is
held, so the claim that the lock is always released before any send is
false. -/

theorem c8_counterexample : c8_claimP = False := by
  apply eq_false
  intro h
  have h2 := h c8SampleState 0
  have h3 : sendsWhileLocked (tickTrace c8SampleState 0) = 2 := by decide
  omega

/-- C8 amended: on every tick, all broadcast sends happen while the registry
write lock is held; no send happens after the release — the lock is released
only before the sleep. -/

theorem c8_amended (s : GameState) (now : Nat) :
    sendsWhileLocked (tickTrace s now) = (tickMid s now).length ∧
    sendsAfterRelease (tickTrace s now) = 0 ∧
    (tickTrace s now).dropWhile (fun e => !isRelease e) =
      [TickEvent.lockRelease, TickEvent.sleep 100] := by
  have hmid := tickMid_sends s now
  have htake : (tickTrace s now).takeWhile (fun e => !isRelease e)
      = TickEvent.lockAcquire :: tickMid s now := by
    rw [tickTrace, List.cons_append, List.takeWhile_cons]
    rw [if_pos (show (!isRelease TickEvent.lockAcquire) = true from rfl)]
    rw [takeWhile_sends _ hmid]
  have hdrop : (tickTrace s now).dropWhile (fun e => !isRelease e)
      = [TickEvent.lockRelease, TickEvent.sleep 100] := by
    rw [tickTrace, List.cons_append, List.dropWhile_cons]
    rw [if_pos (show (!isRelease TickEvent.lockAcquire) = true from rfl)]
    exact dropWhile_sends _ hmid
  refine ⟨?_, ?_, hdrop⟩
  · rw [sendsWhileLocked, htake, List.filter_cons]
    simp only [isSend, Bool.false_eq_true, if_false]
    rw [filter_sends _ hmid]
  · rw [sendsAfterRelease, hdrop]
    rfl

/-- Head-of-trace sleep value when all middle events are sends: the trailing
sleep of 100 ms is the only sleep in the trace. -/

theorem sleepOf_trace (mid : List TickEvent)
    (h : ∀ ev ∈ mid, isSend ev = true) :
    sleepOf (TickEvent.lockAcquire :: mid ++
      [TickEvent.lockRelease, TickEvent.sleep 100]) = some 100 := by
  induction mid with
  | nil => rfl
  | cons a l ih =>
    have ha := h a (List.mem_cons_self _ _)
    have hl := ih fun ev hev => h ev (List.mem_cons_of_mem _ hev)
    cases a <;> simp_all [sleepOf, isSend, List.filterMap_cons]

/-- C9 counterexample: the loop's sleep does not depend on the processing
time at all — at a tick that spent 30 ms processing, the code still sleeps
the constant 100 ms rather than the remaining budget of 70 ms required by
the claim. -/

theorem c9_counterexample : c9_claimP = False := by
  apply eq_false
  intro h
  have h30 := h initialState 0 30 (by omega)
  have hcode : sleepOf (tickTrace initialState 0) = some 100 := by decide
  rw [hcode] at h30
  simp [specSleepMs] at h30

/-- C9 amended: every iteration of the game loop sleeps the fixed constant
100 ms after processing, regardless of state, time, or processing cost. -/

theorem c9_amended (s : GameState) (now : Nat) :
    sleepOf (tickTrace s now) = some 100 := by
  rw [tickTrace]
  exact sleepOf_trace (tickMid s now) (tickMid_sends s now)
